import Mathlib

/-!
Verification of the SSE watch-multiplexing relay of the models web app
backend (`backend/apps/common/sse/{manager,routes,watchers}.py` and
`backend/apps/v1beta1/routes/get.py`), via a shallow embedding of the
relevant Python code into Lean.

Conventions of the embedding:
* Python `str` values that only need equality/concatenation are `String`;
  watch keys, which need prefix dispatch, are `List Char`.
* Python dicts/lists carried as JSON-able data are `PyVal`.
* `time.time()` is modelled as a discrete clock advancing by one unit per
  `queue.get(timeout=1)` timeout, the spec's "time unit".
* A call that may raise is driven by an explicit oracle saying, per call
  site, whether it raises; the embedded control flow then follows the
  `try`/`except` structure of the source.
-/

set_option autoImplicit false

/-- Python values as they appear in the SSE code paths: strings and
(insertion-ordered) dicts with string keys. -/
inductive PyVal where
  | str (s : String)
  | obj (fields : List (String × PyVal))
deriving Repr

/-- ASCII lowering of one character, the fragment of Python `str.lower()`
exercised by the code (event types are ASCII). -/
def charLower (c : Char) : Char :=
  if 'A' ≤ c ∧ c ≤ 'Z' then Char.ofNat (c.toNat + 32) else c

/-- Embedding of Python `str.lower()` on the ASCII fragment. -/
def pyLower (s : String) : String :=
  String.mk (s.toList.map charLower)

/-- JSON string escaping as done by `json.dumps` on the printable-ASCII
strings occurring here: backslash and double quote are escaped. -/
def jsonEscapeChar (c : Char) : String :=
  if c = '"' then "\\\"" else if c = '\\' then "\\\\" else String.singleton c

/-- Embedding of `json.dumps` on a string literal. -/
def jsonDumpStr (s : String) : String :=
  "\"" ++ String.join (s.toList.map jsonEscapeChar) ++ "\""

mutual
/-- Embedding of Python `json.dumps` with default separators
(item separator a comma and a space, key separator a colon and a space),
preserving dict insertion order. -/
def jsonDumps : PyVal → String
  | .str s => jsonDumpStr s
  | .obj fs => "\x7b" ++ jsonDumpsFields fs ++ "\x7d"

/-- Field list of a dict rendered by `json.dumps`. -/
def jsonDumpsFields : List (String × PyVal) → String
  | [] => ""
  | [(k, v)] => jsonDumpStr k ++ ": " ++ jsonDumps v
  | (k, v) :: f :: fs =>
      jsonDumpStr k ++ ": " ++ jsonDumps v ++ ", " ++ jsonDumpsFields (f :: fs)
end

/-- Lookup of `d[k]` on an embedded Python dict, first matching key. -/
def pyDictGet (k : String) : PyVal → Option PyVal
  | .str _ => none
  | .obj fs => (fs.find? (fun p => p.1 = k)).map Prod.snd

/-- Value of `d[k]` expected to be a string (as in `event_data["type"]`). -/
def pyDictGetStr (k : String) (v : PyVal) : String :=
  match pyDictGet k v with
  | some (.str s) => s
  | _ => ""

/-- Embedding of `routes._format_sse_message`: the literal
f-string `event: ...`, newline, `data: ...`, two newlines, with the event
type lower-cased and the payload JSON-encoded. -/
def formatSseMessage (eventType : String) (data : PyVal) : String :=
  "event: " ++ pyLower eventType ++ "\ndata: " ++ jsonDumps data ++ "\n\n"

/-- Embedding of `routes._send_heartbeat`: the SSE comment line. -/
def sendHeartbeat : String :=
  ": heartbeat\n\n"

/-- Embedding of the envelope built by `manager._broadcast_event`:
`event_data = {"type": event_type, "object": obj}` (insertion order kept). -/
def eventEnvelope (eventType : String) (obj : PyVal) : PyVal :=
  .obj [("type", .str eventType), ("object", obj)]

/-- Embedding of the event emission in `stream_inference_services.event_stream`:
`_format_sse_message(event_data["type"].lower(), event_data)`. -/
def sessionEmitEvent (eventData : PyVal) : String :=
  formatSseMessage (pyLower (pyDictGetStr "type" eventData)) eventData

/-- The concrete Kubernetes object of the wire-format scenario:
the dict with metadata.name equal to x. -/
def objMetadataNameX : PyVal :=
  .obj [("metadata", .obj [("name", .str "x")])]

/-!
Backoff (`watchers.InferenceServiceWatcher._reconnect_with_backoff`, and the
textually identical `EventWatcher._reconnect_with_backoff`).  The source is

    delay = initial_delay
    while delay <= max_delay and not self._stop_requested:
        log.info(...)
        time.sleep(delay)
        delay *= 2
        break

The loop body ends in an unconditional `break`, so the body runs at most
once; `delay` is a local, reset to `initial_delay` (default 1) on every
call.  The embedding returns the list of sleep durations one call performs.
-/

/-- Sleeps performed by one call of `_reconnect_with_backoff` with the given
loop-entry delay: the `while` condition is tested once, and on success the
body sleeps, doubles the local `delay`, and `break`s out. -/
def reconnectBackoffSleeps (initialDelay maxDelay : Nat) (stopRequested : Bool) : List Nat :=
  if initialDelay ≤ maxDelay ∧ stopRequested = false then [initialDelay] else []

/-- Sleeps across `k` consecutive reconnect failures of a running watcher
(no intervening success, stop never requested): each failure path calls
`self._reconnect_with_backoff()` with the default arguments 1 and 32. -/
def consecutiveFailureSleeps : Nat → List Nat
  | 0 => []
  | k + 1 => consecutiveFailureSleeps k ++ reconnectBackoffSleeps 1 32 false

/-- The delays the specification describes for `k` consecutive failures:
doubling from 1, capped at 32. -/
def specBackoffDelays (k : Nat) : List Nat :=
  (List.range k).map (fun i => min (2 ^ i) 32)

/-!
Heartbeats (`routes.stream_inference_services.event_stream`).  With no event
in the mailbox, each iteration is one `queue.get(timeout=1)` timeout taking
one time unit, then the check `time.time() - last_heartbeat > 30`; on
success the heartbeat is yielded and `last_heartbeat` reset.  The clock
starts at the last emission (which also set `last_heartbeat`).
-/

/-- Times (in units since the last emission) at which the session loop
yields a heartbeat, over `n` further event-less poll timeouts, given the
current `last_heartbeat` value and the current clock. -/
def heartbeatTimesAux : Nat → Nat → Nat → List Nat
  | 0, _, _ => []
  | n + 1, lastHb, now =>
      let t := now + 1
      if 30 < t - lastHb then t :: heartbeatTimesAux n t t
      else heartbeatTimesAux n lastHb t

/-- Heartbeat emission times of a session run that sees no event for `n`
time units after the last emission at time 0. -/
def sessionHeartbeatTimes (n : Nat) : List Nat :=
  heartbeatTimesAux n 0 0

/-!
The inner event loop of the watchers
(`watchers.InferenceServiceWatcher.watch_namespace` /
`.watch_single` / `EventWatcher.watch_events`, textually identical bodies):

    for event in self.watch.stream(...):
        if self._stop_requested:
            break
        event_type = event["type"]
        obj = event["object"]
        try:
            event_callback(event_type, obj)
        except Exception as e:
            log.error(f"Error in event callback: ...")

The callback is `manager`'s per-key broadcast closure; whether it raises on
a given event is an oracle parameter.
-/

/-- Result of running the per-stream event loop over the events one
upstream stream yields. -/
structure StreamLoopResult where
  delivered : List (String × PyVal)
  callbackErrors : List (String × PyVal)
  aborted : Bool
deriving Repr

/-- Embedding of the watchers' inner `for event in self.watch.stream(...)`
loop: `stopRequested` is the value of `self._stop_requested` at each check,
`cbRaises` says whether the callback raises on a given event.  A raising
callback is caught and logged (`callbackErrors`); `aborted` records an exit
through the stop-request `break`. -/
def processStreamEvents (stopRequested : Bool) (cbRaises : String → PyVal → Bool) :
    List (String × PyVal) → StreamLoopResult
  | [] => ⟨[], [], false⟩
  | (t, o) :: rest =>
    if stopRequested then ⟨[], [], true⟩
    else
      let r := processStreamEvents stopRequested cbRaises rest
      if cbRaises t o then ⟨r.delivered, (t, o) :: r.callbackErrors, r.aborted⟩
      else ⟨(t, o) :: r.delivered, r.callbackErrors, r.aborted⟩

/-!
Namespace listing with allow-list filtering
(`backend/apps/v1beta1/routes/get.py`, `get_namespaces`).  Namespace names
and the raw `ALLOWED_NAMESPACES` environment value are modelled as
`List Char` (Python `str`).
-/

/-- Python whitespace test used by `str.strip()` and `str.split`. -/
def isPySpace (c : Char) : Bool :=
  (c == ' ') || (c == '\t') || (c == '\n') || (c == '\r') || (c == '\x0b') || (c == '\x0c')

/-- Embedding of Python `str.strip()`: drop whitespace from both ends. -/
def pyStrip (s : List Char) : List Char :=
  ((s.dropWhile isPySpace).reverse.dropWhile isPySpace).reverse

/-- Embedding of Python `str.split(",")`: split on every comma, keeping
empty pieces; the empty string splits to one empty piece. -/
def splitComma : List Char → List (List Char)
  | [] => [[]]
  | c :: rest =>
    if c == ',' then [] :: splitComma rest
    else
      match splitComma rest with
      | piece :: pieces => (c :: piece) :: pieces
      | [] => [[c]]

/-- The `allowed_namespaces` list of `get_namespaces`: strip the raw
environment value, split on commas, strip each piece, keep nonempty ones. -/
def allowedEntries (envRaw : List Char) : List (List Char) :=
  ((splitComma (pyStrip envRaw)).map pyStrip).filter (fun ns => decide (ns ≠ []))

/-- The `valid_allowed_namespaces` list: allow-list entries that exist in
the cluster. -/
def validEntries (allNames : List (List Char)) (envRaw : List Char) : List (List Char) :=
  (allowedEntries envRaw).filter (fun ns => decide (ns ∈ allNames))

/-- The `invalid_namespaces` list: allow-list entries absent from the
cluster. -/
def invalidEntries (allNames : List (List Char)) (envRaw : List Char) : List (List Char) :=
  (allowedEntries envRaw).filter (fun ns => decide (ns ∉ allNames))

/-- Result of `get_namespaces`: the namespace list of the success response,
whether the fall-back-to-all warning was logged, and the list of invalid
entries named by the invalid-entries warning (empty = warning not logged). -/
structure NamespacesResult where
  namespaces : List (List Char)
  fallbackWarned : Bool
  invalidWarned : List (List Char)
deriving Repr, DecidableEq

/-- Embedding of `get_namespaces`, as a function of the cluster's namespace
names and the raw `ALLOWED_NAMESPACES` environment value, following the
source's branch order: empty (falsy) stripped environment value, then empty
allow-list, then no valid entry (fall back to all namespaces with a
warning), then the valid entries with the invalid ones logged. -/
def getNamespaces (allNames : List (List Char)) (envRaw : List Char) : NamespacesResult :=
  if pyStrip envRaw = [] then ⟨allNames, false, []⟩
  else if allowedEntries envRaw = [] then ⟨allNames, false, []⟩
  else if validEntries allNames envRaw = [] then ⟨allNames, true, []⟩
  else ⟨validEntries allNames envRaw, false, invalidEntries allNames envRaw⟩

/-!
The connection manager (`manager.SSEConnectionManager`).  The watcher
dicts and the client-queue `defaultdict(list)` are association lists; the
client queues themselves live on a separate heap keyed by queue identity
(a Python `queue.Queue(maxsize=100)` object per session), since the
manager's tables hold references.  Watcher objects are identified by the
order of their construction.
-/

/-- Association-list lookup, first matching key (Python dict access). -/
def lookupA {κ α : Type} [DecidableEq κ] (k : κ) : List (κ × α) → Option α
  | [] => none
  | (k', v) :: rest => if k' = k then some v else lookupA k rest

/-- Association-list store `d[k] = v`: update in place, or append a new
entry at the end (Python dict insertion order). -/
def setA {κ α : Type} [DecidableEq κ] (k : κ) (v : α) : List (κ × α) → List (κ × α)
  | [] => [(k, v)]
  | (k', v') :: rest => if k' = k then (k, v) :: rest else (k', v') :: setA k v rest

/-- Association-list removal of the entry for `k` (Python `dict.pop`). -/
def eraseA {κ α : Type} [DecidableEq κ] (k : κ) : List (κ × α) → List (κ × α)
  | [] => []
  | (k', v') :: rest => if k' = k then rest else (k', v') :: eraseA k rest

/-- A watch key, the Python string `f"ns:{namespace}"` etc. -/
abbrev WatchKey := List Char

/-- State of one `SSEConnectionManager`: the three watcher dicts, the
client-queue table, and the heap of queue contents by queue identity.
The `_locks` table has no observable content and is omitted. -/
structure SSEManagerState where
  namespaceWatchers : List (WatchKey × Nat)
  singleWatchers : List (WatchKey × Nat)
  eventWatchers : List (WatchKey × Nat)
  clientQueues : List (WatchKey × List Nat)
  queueContents : List (Nat × List PyVal)
deriving Repr

/-- `self._client_queues[watch_key]` as read: a missing key reads as `[]`
(the `defaultdict(list)` default). -/
def queuesOf (st : SSEManagerState) (key : WatchKey) : List Nat :=
  (lookupA key st.clientQueues).getD []

/-- Contents of the queue with identity `q`. -/
def contentsOf (st : SSEManagerState) (q : Nat) : List PyVal :=
  (lookupA q st.queueContents).getD []

/-- Capacity of every client queue: `queue.Queue(maxsize=100)` in the
routes. -/
def queueMaxsize : Nat := 100

/-- Effect of a successful `queue.put(item)` on the queue heap. -/
def queuePut (contents : List (Nat × List PyVal)) (q : Nat) (item : PyVal) :
    List (Nat × List PyVal) :=
  setA q ((lookupA q contents).getD [] ++ [item]) contents

/-- Result of the delivery loop of `_broadcast_event` over the key's queue
list: updated queue heap, queues delivered to, `dead_queues`, and the
queue (if any) on which `queue.put` blocked. -/
structure BcastLoopResult where
  contents : List (Nat × List PyVal)
  delivered : List Nat
  dead : List Nat
  blockedAt : Option Nat
deriving Repr

/-- Embedding of the `for queue in self._client_queues[watch_key]` loop of
`_broadcast_event`.  `queue.put(event_data)` is the default blocking put of
`queue.Queue`: on a full queue (`queueMaxsize` items) it blocks with no
timeout, so the loop never proceeds past it (`blockedAt`); it raises only
when the oracle `putRaises` says so, in which case the `except` branch logs
the error and records the queue in `dead_queues`. -/
def bcastLoop (ev : PyVal) (putRaises : Nat → Bool) :
    List (Nat × List PyVal) → List Nat → BcastLoopResult
  | contents, [] => ⟨contents, [], [], none⟩
  | contents, q :: rest =>
    if putRaises q then
      let r := bcastLoop ev putRaises contents rest
      ⟨r.contents, r.delivered, q :: r.dead, r.blockedAt⟩
    else if queueMaxsize ≤ ((lookupA q contents).getD []).length then
      ⟨contents, [], [], some q⟩
    else
      let r := bcastLoop ev putRaises (queuePut contents q ev) rest
      ⟨r.contents, q :: r.delivered, r.dead, r.blockedAt⟩

/-- `for queue in dead_queues: self._client_queues[watch_key].remove(queue)`:
remove the first occurrence of each dead queue, in order. -/
def removeQueues (qs dead : List Nat) : List Nat :=
  dead.foldl (fun l q => l.erase q) qs

/-- Outcome of one `_broadcast_event` call: either the call returns
(`done`, with the resulting manager state, the queues delivered to and the
evicted `dead_queues`), or it is stuck forever in a blocking `queue.put`
on the named queue, with the lock still held (`blocked`). -/
inductive BroadcastOutcome where
  | done (st : SSEManagerState) (delivered evicted : List Nat)
  | blocked (st : SSEManagerState) (q : Nat)

/-- Manager state after the outcome (for `blocked`, the state at the moment
the call got stuck). -/
def BroadcastOutcome.newState : BroadcastOutcome → SSEManagerState
  | .done st _ _ => st
  | .blocked st _ => st

/-- Whether the call got stuck in a blocking `queue.put`. -/
def BroadcastOutcome.isBlocked : BroadcastOutcome → Bool
  | .done _ _ _ => false
  | .blocked _ _ => true

/-- Queues the envelope was enqueued to. -/
def BroadcastOutcome.deliveredQueues : BroadcastOutcome → List Nat
  | .done _ d _ => d
  | .blocked _ _ => []

/-- Queues logged and evicted as `dead_queues` (empty if the call never
reached the eviction pass). -/
def BroadcastOutcome.evictedQueues : BroadcastOutcome → List Nat
  | .done _ _ e => e
  | .blocked _ _ => []

/-- Embedding of `SSEConnectionManager._broadcast_event`: build the
envelope, and under the key's lock deliver it to every queue in the key's
list, collecting and then removing `dead_queues`. -/
def broadcastEvent (st : SSEManagerState) (key : WatchKey) (eventType : String)
    (obj : PyVal) (putRaises : Nat → Bool) : BroadcastOutcome :=
  let ev := eventEnvelope eventType obj
  let qs := queuesOf st key
  let r := bcastLoop ev putRaises st.queueContents qs
  match r.blockedAt with
  | some q =>
      .blocked
        { st with
          queueContents := r.contents
          clientQueues := setA key qs st.clientQueues }
        q
  | none =>
      .done
        { st with
          queueContents := r.contents
          clientQueues := setA key (removeQueues qs r.dead) st.clientQueues }
        r.delivered r.dead

/-!
Registration and teardown (`register_namespace_watch`,
`register_single_watch`, `register_event_watch`, `unregister_client`,
`_stop_watcher`).  Each of these bodies is one critical section under the
key's lock, so an interleaving of concurrent calls is a sequence of these
atomic steps.  A trace state instruments the manager state with a
watcher-construction counter (fresh watcher identities) and a log of
watcher constructions and stops.
-/

/-- One observable watcher lifecycle event: a register call constructed
(and started) a watcher for the key, or `_stop_watcher` popped and stopped
it. -/
inductive WatcherTraceEv where
  | constructed (key : WatchKey) (wid : Nat)
  | stoppedW (key : WatchKey) (wid : Nat)
deriving Repr, DecidableEq

/-- Manager state instrumented with fresh watcher identities and a
lifecycle log. -/
structure TState where
  ms : SSEManagerState
  nextWatcherId : Nat
  log : List WatcherTraceEv
deriving Repr

/-- The watch key `f"ns:{namespace}"`. -/
def nsKeyOf (nsName : List Char) : WatchKey :=
  "ns:".toList ++ nsName

/-- The watch key `f"isvc:{namespace}/{name}"`. -/
def isvcKeyOf (nsName rName : List Char) : WatchKey :=
  "isvc:".toList ++ nsName ++ "/".toList ++ rName

/-- The watch key `f"events:{namespace}/{isvc_name}"`. -/
def eventsKeyOf (nsName rName : List Char) : WatchKey :=
  "events:".toList ++ nsName ++ "/".toList ++ rName

/-- Embedding of Python `str.startswith` on the key strings. -/
def startsWithL : List Char → List Char → Bool
  | [], _ => true
  | _ :: _, [] => false
  | p :: ps, c :: cs => (p == c) && startsWithL ps cs

/-- Embedding of `register_namespace_watch(namespace, client_queue)`:
under the key's lock, append the queue to the key's list; if the key has no
watcher in `_namespace_watchers`, construct one (a fresh identity), store
it and start its thread (logged as `constructed`). -/
def registerNamespaceWatch (nsName : List Char) (q : Nat) (ts : TState) : TState :=
  let key := nsKeyOf nsName
  let ms := ts.ms
  let ms1 := { ms with clientQueues := setA key (queuesOf ms key ++ [q]) ms.clientQueues }
  match lookupA key ms1.namespaceWatchers with
  | some _ => { ts with ms := ms1 }
  | none =>
      { ms := { ms1 with namespaceWatchers := setA key ts.nextWatcherId ms1.namespaceWatchers }
        nextWatcherId := ts.nextWatcherId + 1
        log := ts.log ++ [.constructed key ts.nextWatcherId] }

/-- Embedding of `register_single_watch(namespace, name, client_queue)`. -/
def registerSingleWatch (nsName rName : List Char) (q : Nat) (ts : TState) : TState :=
  let key := isvcKeyOf nsName rName
  let ms := ts.ms
  let ms1 := { ms with clientQueues := setA key (queuesOf ms key ++ [q]) ms.clientQueues }
  match lookupA key ms1.singleWatchers with
  | some _ => { ts with ms := ms1 }
  | none =>
      { ms := { ms1 with singleWatchers := setA key ts.nextWatcherId ms1.singleWatchers }
        nextWatcherId := ts.nextWatcherId + 1
        log := ts.log ++ [.constructed key ts.nextWatcherId] }

/-- Embedding of `register_event_watch(namespace, isvc_name, client_queue)`. -/
def registerEventWatch (nsName rName : List Char) (q : Nat) (ts : TState) : TState :=
  let key := eventsKeyOf nsName rName
  let ms := ts.ms
  let ms1 := { ms with clientQueues := setA key (queuesOf ms key ++ [q]) ms.clientQueues }
  match lookupA key ms1.eventWatchers with
  | some _ => { ts with ms := ms1 }
  | none =>
      { ms := { ms1 with eventWatchers := setA key ts.nextWatcherId ms1.eventWatchers }
        nextWatcherId := ts.nextWatcherId + 1
        log := ts.log ++ [.constructed key ts.nextWatcherId] }

/-- Embedding of `_stop_watcher(watch_key)`: dispatch on the key's string
form, `pop` the watcher from the matching dict, and if one was there, stop
it (logged as `stoppedW`). -/
def stopWatcher (key : WatchKey) (ts : TState) : TState :=
  if startsWithL "ns:".toList key then
    match lookupA key ts.ms.namespaceWatchers with
    | some wid =>
        { ts with
          ms := { ts.ms with namespaceWatchers := eraseA key ts.ms.namespaceWatchers }
          log := ts.log ++ [.stoppedW key wid] }
    | none => ts
  else if startsWithL "isvc:".toList key then
    match lookupA key ts.ms.singleWatchers with
    | some wid =>
        { ts with
          ms := { ts.ms with singleWatchers := eraseA key ts.ms.singleWatchers }
          log := ts.log ++ [.stoppedW key wid] }
    | none => ts
  else if startsWithL "events:".toList key then
    match lookupA key ts.ms.eventWatchers with
    | some wid =>
        { ts with
          ms := { ts.ms with eventWatchers := eraseA key ts.ms.eventWatchers }
          log := ts.log ++ [.stoppedW key wid] }
    | none => ts
  else ts

/-- Embedding of `unregister_client(watch_key, client_queue)`: under the
key's lock, remove the queue from the key's list if present, and if the
list is now empty, `_stop_watcher`. -/
def unregisterClient (key : WatchKey) (q : Nat) (ts : TState) : TState :=
  let qs := queuesOf ts.ms key
  let qs1 := if q ∈ qs then qs.erase q else qs
  let ts1 := { ts with ms := { ts.ms with clientQueues := setA key qs1 ts.ms.clientQueues } }
  if qs1.length = 0 then stopWatcher key ts1 else ts1

/-- A sequence of `register_namespace_watch(namespace, q)` critical
sections, one per queue of `qs`, in that interleaving order. -/
def runNamespaceRegs (nsName : List Char) (qs : List Nat) (ts : TState) : TState :=
  qs.foldl (fun t q => registerNamespaceWatch nsName q t) ts

/-- A sequence of `unregister_client(key, q)` critical sections, one per
queue of `qs`, in that interleaving order. -/
def runUnregs (key : WatchKey) (qs : List Nat) (ts : TState) : TState :=
  qs.foldl (fun t q => unregisterClient key q t) ts

/-- Number of entries a watcher dict holds for a key (a Python dict always
has at most one; the association list makes this a provable invariant). -/
def countKeyEntries (key : WatchKey) (l : List (WatchKey × Nat)) : Nat :=
  (l.filter (fun p => decide (p.1 = key))).length

/-- Number of watcher constructions for the key in a lifecycle log. -/
def constructedCount (key : WatchKey) (log : List WatcherTraceEv) : Nat :=
  (log.filter (fun e =>
    match e with
    | .constructed k _ => decide (k = key)
    | .stoppedW _ _ => false)).length

/-- Number of watcher stops for the key in a lifecycle log. -/
def stoppedCount (key : WatchKey) (log : List WatcherTraceEv) : Nat :=
  (log.filter (fun e =>
    match e with
    | .constructed _ _ => false
    | .stoppedW k _ => decide (k = key))).length

/-- Whether a (namespace-scope) watcher is currently stored for the key. -/
def nsWatcherLive (ts : TState) (key : WatchKey) : Bool :=
  (lookupA key ts.ms.namespaceWatchers).isSome

/-- The empty manager state (`SSEConnectionManager.__init__`). -/
def initManagerState : SSEManagerState :=
  ⟨[], [], [], [], []⟩

/-- The empty instrumented state. -/
def initTState : TState :=
  ⟨initManagerState, 0, []⟩

/-!
Helper lemmas about the association-list operations, key dispatch, and
lifecycle logs.
-/

theorem lookupA_setA_self {κ α : Type} [DecidableEq κ] (k : κ) (v : α)
    (l : List (κ × α)) : lookupA k (setA k v l) = some v := by
  induction l with
  | nil => simp [setA, lookupA]
  | cons p rest ih =>
    obtain ⟨k', v'⟩ := p
    by_cases h : k' = k
    · simp [setA, h, lookupA]
    · simp [setA, h, lookupA, ih]

theorem lookupA_setA_ne {κ α : Type} [DecidableEq κ] {k' k : κ} (v : α)
    (l : List (κ × α)) (h : k' ≠ k) : lookupA k' (setA k v l) = lookupA k' l := by
  induction l with
  | nil => simp [setA, lookupA, Ne.symm h]
  | cons p rest ih =>
    obtain ⟨k₀, v₀⟩ := p
    by_cases h₀ : k₀ = k
    · subst h₀
      simp [setA, lookupA, Ne.symm h]
    · simp [setA, h₀, lookupA, ih]

theorem setA_of_lookupA_none {κ α : Type} [DecidableEq κ] {k : κ} (v : α)
    {l : List (κ × α)} (h : lookupA k l = none) : setA k v l = l ++ [(k, v)] := by
  induction l with
  | nil => simp [setA]
  | cons p rest ih =>
    obtain ⟨k₀, v₀⟩ := p
    by_cases h₀ : k₀ = k
    · simp [lookupA, h₀] at h
    · simp [lookupA, h₀] at h
      simp [setA, h₀, ih h]

theorem eraseA_append_of_lookupA_none {κ α : Type} [DecidableEq κ] {k : κ}
    {l : List (κ × α)} (l₂ : List (κ × α)) (h : lookupA k l = none) :
    eraseA k (l ++ l₂) = l ++ eraseA k l₂ := by
  induction l with
  | nil => simp
  | cons p rest ih =>
    obtain ⟨k₀, v₀⟩ := p
    by_cases h₀ : k₀ = k
    · simp [lookupA, h₀] at h
    · simp [lookupA, h₀] at h
      simp [eraseA, h₀, ih h]

theorem eraseA_setA_of_lookupA_none {κ α : Type} [DecidableEq κ] {k : κ} (v : α)
    {l : List (κ × α)} (h : lookupA k l = none) : eraseA k (setA k v l) = l := by
  rw [setA_of_lookupA_none v h, eraseA_append_of_lookupA_none _ h]
  simp [eraseA]

theorem setA_setA {κ α : Type} [DecidableEq κ] (k : κ) (v₁ v₂ : α)
    (l : List (κ × α)) : setA k v₂ (setA k v₁ l) = setA k v₂ l := by
  induction l with
  | nil => simp [setA]
  | cons p rest ih =>
    obtain ⟨k₀, v₀⟩ := p
    by_cases h₀ : k₀ = k
    · simp [setA, h₀]
    · simp [setA, h₀, ih]

theorem countKeyEntries_of_lookupA_none {k : WatchKey} {l : List (WatchKey × Nat)}
    (h : lookupA k l = none) : countKeyEntries k l = 0 := by
  induction l with
  | nil => rfl
  | cons p rest ih =>
    obtain ⟨k₀, v₀⟩ := p
    by_cases h₀ : k₀ = k
    · simp [lookupA, h₀] at h
    · simp [lookupA, h₀] at h
      simp [countKeyEntries, List.filter, h₀, countKeyEntries] at ih ⊢
      exact ih h

theorem countKeyEntries_append (k : WatchKey) (l₁ l₂ : List (WatchKey × Nat)) :
    countKeyEntries k (l₁ ++ l₂) = countKeyEntries k l₁ + countKeyEntries k l₂ := by
  simp [countKeyEntries, List.filter_append]

theorem countKeyEntries_setA_of_lookupA_none {k : WatchKey} (v : Nat)
    {l : List (WatchKey × Nat)} (h : lookupA k l = none) :
    countKeyEntries k (setA k v l) = 1 := by
  rw [setA_of_lookupA_none v h, countKeyEntries_append,
    countKeyEntries_of_lookupA_none h]
  simp [countKeyEntries, List.filter]

theorem startsWithL_append (pre s : List Char) : startsWithL pre (pre ++ s) = true := by
  induction pre with
  | nil => rfl
  | cons c rest ih => simp [startsWithL, ih]

theorem constructedCount_append (k : WatchKey) (l₁ l₂ : List WatcherTraceEv) :
    constructedCount k (l₁ ++ l₂) = constructedCount k l₁ + constructedCount k l₂ := by
  simp [constructedCount, List.filter_append]

theorem stoppedCount_append (k : WatchKey) (l₁ l₂ : List WatcherTraceEv) :
    stoppedCount k (l₁ ++ l₂) = stoppedCount k l₁ + stoppedCount k l₂ := by
  simp [stoppedCount, List.filter_append]

/-!
Claim theorems.
-/

/-- Claim C1 (code bug): the claim — and the docstring and parameters of
`_reconnect_with_backoff` itself (`initial_delay=1, max_delay=32`,
`delay *= 2`, "Reconnect with exponential backoff") — call for consecutive
reconnect delays 1, 2, 4, 8, 16, 32, 32, ...; but the loop body ends in an
unconditional `break` and `delay` is reset to 1 on every call, so each of
`k` consecutive failures sleeps exactly 1 time unit.  Evaluated at the
failing input `k = 2`: the code sleeps 1, 1 where the claim requires 1, 2. -/
theorem c1_backoff_constant_one :
    consecutiveFailureSleeps 2 = [1, 1] ∧
    specBackoffDelays 2 = [1, 2] ∧
    consecutiveFailureSleeps 2 ≠ specBackoffDelays 2 ∧
    ∀ k, consecutiveFailureSleeps k = List.replicate k 1 := by
  refine ⟨by decide, by decide, by decide, ?_⟩
  intro k
  induction k with
  | zero => rfl
  | succ n ih =>
      simp [consecutiveFailureSleeps, reconnectBackoffSleeps, ih,
        List.replicate_succ']

/-- Claim C6, counterexample: in a 35-unit event-less window the session
emits its single heartbeat at the 31-unit mark, not at the 30-unit mark as
claimed — the code's check `time.time() - last_heartbeat > 30` is strict,
and the first poll timeout at which more than 30 units have elapsed is 31. -/
theorem c6_counterexample :
    sessionHeartbeatTimes 35 = [31] ∧ 30 ∉ sessionHeartbeatTimes 35 := by
  decide

/-- Claim C6, amended: a session loop receiving no event for 35 time units
after the last emission emits exactly one heartbeat comment, at the 31-unit
mark (the first 1-unit poll timeout at which strictly more than 30 units
have elapsed), and emits no heartbeat in any event-less window of at most
30 units. -/
theorem c6_heartbeat_at_31 :
    sessionHeartbeatTimes 35 = [31] ∧
    ((List.range 31).all fun n => decide (sessionHeartbeatTimes n = [])) = true := by
  decide

/-- Claim C7: in the watchers' per-stream event loop, a callback that
raises on an event is caught and logged, the event is dropped, and the loop
continues: over any stream of events, with stop not requested, the events
whose callback completes are exactly the non-raising ones in stream order,
the logged ones are exactly the raising ones, and the loop is never
aborted by a callback error. -/
theorem c7_callback_error_isolated (events : List (String × PyVal))
    (cbRaises : String → PyVal → Bool) :
    processStreamEvents false cbRaises events =
      ⟨events.filter (fun e => !cbRaises e.1 e.2),
       events.filter (fun e => cbRaises e.1 e.2), false⟩ := by
  induction events with
  | nil => rfl
  | cons e rest ih =>
    obtain ⟨t, o⟩ := e
    cases hc : cbRaises t o <;>
      simp [processStreamEvents, ih, List.filter_cons, hc]

/-- Claim C4: broadcasting an event of type MODIFIED whose object is the
dict with metadata.name x to a key with one attached session queue enqueues
the envelope into that queue, and the session loop re-emits it as exactly
the bytes `event: modified`, newline, `data: ` followed by the JSON of the
envelope (type first, then object, default `json.dumps` separators), and a
blank line — the event name being the lower-cased event kind. -/
theorem c4_wire_format :
    (broadcastEvent
        { initManagerState with
          clientQueues := [(nsKeyOf "team".toList, [7])]
          queueContents := [(7, [])] }
        (nsKeyOf "team".toList) "MODIFIED" objMetadataNameX (fun _ => false)).deliveredQueues
      = [7] ∧
    contentsOf
      (broadcastEvent
        { initManagerState with
          clientQueues := [(nsKeyOf "team".toList, [7])]
          queueContents := [(7, [])] }
        (nsKeyOf "team".toList) "MODIFIED" objMetadataNameX (fun _ => false)).newState 7
      = [eventEnvelope "MODIFIED" objMetadataNameX] ∧
    sessionEmitEvent (eventEnvelope "MODIFIED" objMetadataNameX) =
      "event: modified\ndata: \x7b\"type\": \"MODIFIED\", \"object\": \x7b\"metadata\": \x7b\"name\": \"x\"\x7d\x7d\x7d\n\n" :=
  ⟨rfl, rfl, rfl⟩

/-- Claim C2, counterexample: `_broadcast_event` delivers with a plain
`queue.put(event_data)` — the default unbounded blocking enqueue of
`queue.Queue` — while holding the per-key lock.  On a key whose single
attached queue already holds 100 items (its capacity) and whose put does
not raise, the call blocks instead of performing a bounded attempt and
eviction: the claimed bounded-attempt policy is false of the code. -/
theorem c2_counterexample :
    (broadcastEvent
        { initManagerState with
          clientQueues := [(nsKeyOf "a".toList, [0])]
          queueContents := [(0, List.replicate 100 (PyVal.str "e"))] }
        (nsKeyOf "a".toList) "ADDED" (PyVal.str "o") (fun _ => false)).isBlocked = true ∧
    (broadcastEvent
        { initManagerState with
          clientQueues := [(nsKeyOf "a".toList, [0])]
          queueContents := [(0, List.replicate 100 (PyVal.str "e"))] }
        (nsKeyOf "a".toList) "ADDED" (PyVal.str "o") (fun _ => false)).evictedQueues = [] :=
  ⟨rfl, rfl⟩

/-- Claim C2, amended: delivery in `_broadcast_event` is an unbounded
blocking enqueue performed while the per-key lock is held: whenever the
first queue of the key's list is full (100 items) and its put does not
raise, the broadcast call blocks on it forever, no queue is evicted, and
the key's queue list is left unchanged; eviction happens only for queues
whose put raises an exception. -/
theorem c2_full_queue_blocks (st : SSEManagerState) (key : WatchKey)
    (eventType : String) (obj : PyVal) (putRaises : Nat → Bool) (q : Nat)
    (rest : List Nat)
    (hq : queuesOf st key = q :: rest)
    (hnr : putRaises q = false)
    (hfull : queueMaxsize ≤ (contentsOf st q).length) :
    (broadcastEvent st key eventType obj putRaises).isBlocked = true ∧
    (broadcastEvent st key eventType obj putRaises).evictedQueues = [] ∧
    queuesOf (broadcastEvent st key eventType obj putRaises).newState key
      = queuesOf st key := by
  have hloop :
      bcastLoop (eventEnvelope eventType obj) putRaises st.queueContents (q :: rest)
        = ⟨st.queueContents, [], [], some q⟩ := by
    have hfull' : queueMaxsize ≤ ((lookupA q st.queueContents).getD []).length := hfull
    simp [bcastLoop, hnr, hfull']
  have hout : broadcastEvent st key eventType obj putRaises =
      .blocked
        { st with
          queueContents := st.queueContents
          clientQueues := setA key (queuesOf st key) st.clientQueues }
        q := by
    simp only [broadcastEvent, hq, hloop]
  rw [hout]
  refine ⟨rfl, rfl, ?_⟩
  simp [queuesOf, BroadcastOutcome.newState, lookupA_setA_self]

/-- Claim C2, witness for the amended theorem at a concrete full queue. -/
theorem c2_full_queue_blocks_witness :
    (broadcastEvent
        { initManagerState with
          clientQueues := [(nsKeyOf "w".toList, [3])]
          queueContents := [(3, List.replicate 100 (PyVal.str "x"))] }
        (nsKeyOf "w".toList) "MODIFIED" (PyVal.str "o") (fun _ => false)).isBlocked = true ∧
    (broadcastEvent
        { initManagerState with
          clientQueues := [(nsKeyOf "w".toList, [3])]
          queueContents := [(3, List.replicate 100 (PyVal.str "x"))] }
        (nsKeyOf "w".toList) "MODIFIED" (PyVal.str "o") (fun _ => false)).evictedQueues = [] ∧
    queuesOf
      (broadcastEvent
        { initManagerState with
          clientQueues := [(nsKeyOf "w".toList, [3])]
          queueContents := [(3, List.replicate 100 (PyVal.str "x"))] }
        (nsKeyOf "w".toList) "MODIFIED" (PyVal.str "o") (fun _ => false)).newState
      (nsKeyOf "w".toList)
      = queuesOf
          { initManagerState with
            clientQueues := [(nsKeyOf "w".toList, [3])]
            queueContents := [(3, List.replicate 100 (PyVal.str "x"))] }
          (nsKeyOf "w".toList) :=
  c2_full_queue_blocks _ _ "MODIFIED" (PyVal.str "o") (fun _ => false) 3 []
    rfl rfl (by decide)

/-- A stripped environment value that is empty yields no allow-list
entries: the split of the empty string is one empty piece, filtered out. -/
theorem allowedEntries_of_strip_nil {envRaw : List Char} (h : pyStrip envRaw = []) :
    allowedEntries envRaw = [] := by
  unfold allowedEntries
  rw [h]
  rfl

/-- Claim C8: get_namespaces with allow-list a,ghost against cluster
namespaces a, b, c returns exactly the namespace a and logs a warning
naming ghost; in general, whenever some allow-list entry is valid the
response is exactly the valid entries with the invalid ones named in a
warning, and whenever a nonempty allow-list has no valid entry the
response falls back to the full unfiltered namespace list. -/
theorem c8_namespace_allowlist :
    getNamespaces ["a".toList, "b".toList, "c".toList] "a,ghost".toList
      = ⟨["a".toList], false, ["ghost".toList]⟩ ∧
    (∀ allNames envRaw, validEntries allNames envRaw ≠ [] →
      getNamespaces allNames envRaw
        = ⟨validEntries allNames envRaw, false, invalidEntries allNames envRaw⟩) ∧
    (∀ allNames envRaw, allowedEntries envRaw ≠ [] →
      validEntries allNames envRaw = [] →
      getNamespaces allNames envRaw = ⟨allNames, true, []⟩) := by
  refine ⟨by decide, ?_, ?_⟩
  · intro allNames envRaw hvalid
    have hallowed : allowedEntries envRaw ≠ [] := by
      intro hh
      exact hvalid (by simp [validEntries, hh])
    have hstrip : pyStrip envRaw ≠ [] := by
      intro hh
      exact hallowed (allowedEntries_of_strip_nil hh)
    unfold getNamespaces
    rw [if_neg hstrip, if_neg hallowed, if_neg hvalid]
  · intro allNames envRaw hallowed hvalid
    have hstrip : pyStrip envRaw ≠ [] := by
      intro hh
      exact hallowed (allowedEntries_of_strip_nil hh)
    unfold getNamespaces
    rw [if_neg hstrip, if_neg hallowed, if_pos hvalid]

/-- Claim C8, witness: both general branches applied at concrete inputs —
a mixed valid/invalid allow-list, and an allow-list matching nothing. -/
theorem c8_namespace_allowlist_witness :
    getNamespaces ["a".toList, "b".toList] "a, b ,nope".toList
      = ⟨validEntries ["a".toList, "b".toList] "a, b ,nope".toList, false,
         invalidEntries ["a".toList, "b".toList] "a, b ,nope".toList⟩ ∧
    getNamespaces ["x".toList] "ghost".toList = ⟨["x".toList], true, []⟩ :=
  ⟨c8_namespace_allowlist.2.1 _ _ (by decide),
   c8_namespace_allowlist.2.2 _ _ (by decide) (by decide)⟩

/-- Claim C9: `_broadcast_event` on a key with zero attached client queues
is a total no-op: the call returns normally (it neither blocks nor raises —
the embedding is a total function whose outcome is `done`), delivers to no
queue, evicts no queue, leaves the contents of every queue and the queue
list of every key unchanged, and leaves all three watcher dicts unchanged. -/
theorem c9_broadcast_no_clients (st : SSEManagerState) (key : WatchKey)
    (eventType : String) (obj : PyVal) (putRaises : Nat → Bool)
    (h : queuesOf st key = []) :
    (broadcastEvent st key eventType obj putRaises).isBlocked = false ∧
    (broadcastEvent st key eventType obj putRaises).deliveredQueues = [] ∧
    (broadcastEvent st key eventType obj putRaises).evictedQueues = [] ∧
    (∀ k, queuesOf (broadcastEvent st key eventType obj putRaises).newState k
        = queuesOf st k) ∧
    (∀ q, contentsOf (broadcastEvent st key eventType obj putRaises).newState q
        = contentsOf st q) ∧
    (broadcastEvent st key eventType obj putRaises).newState.namespaceWatchers
      = st.namespaceWatchers ∧
    (broadcastEvent st key eventType obj putRaises).newState.singleWatchers
      = st.singleWatchers ∧
    (broadcastEvent st key eventType obj putRaises).newState.eventWatchers
      = st.eventWatchers := by
  have hout : broadcastEvent st key eventType obj putRaises
      = .done { st with clientQueues := setA key [] st.clientQueues } [] [] := by
    simp [broadcastEvent, h, bcastLoop, removeQueues]
  rw [hout]
  refine ⟨rfl, rfl, rfl, ?_, fun q => rfl, rfl, rfl, rfl⟩
  intro k
  by_cases hk : k = key
  · subst hk
    simp only [queuesOf, BroadcastOutcome.newState, lookupA_setA_self, Option.getD_some]
    exact h.symm
  · simp [queuesOf, BroadcastOutcome.newState, lookupA_setA_ne _ _ hk]

/-- Claim C9, witness: broadcasting on the empty manager state. -/
theorem c9_broadcast_no_clients_witness :
    (broadcastEvent initManagerState (nsKeyOf "z".toList) "ADDED"
        (PyVal.str "o") (fun _ => false)).isBlocked = false ∧
    ∀ k, queuesOf
        (broadcastEvent initManagerState (nsKeyOf "z".toList) "ADDED"
          (PyVal.str "o") (fun _ => false)).newState k
      = queuesOf initManagerState k :=
  ⟨(c9_broadcast_no_clients initManagerState (nsKeyOf "z".toList) "ADDED"
      (PyVal.str "o") (fun _ => false) rfl).1,
   (c9_broadcast_no_clients initManagerState (nsKeyOf "z".toList) "ADDED"
      (PyVal.str "o") (fun _ => false) rfl).2.2.2.1⟩

/-- When no queue in the list is both non-raising and full, the delivery
loop of `_broadcast_event` completes: it never blocks, delivers to exactly
the non-raising queues in list order, collects exactly the raising queues
as `dead_queues`, appends the envelope to each non-raising queue's
contents, and leaves every other queue's contents unchanged.  Queue
identities are distinct (each session owns its own `queue.Queue` object). -/
theorem bcastLoop_no_block (ev : PyVal) (putRaises : Nat → Bool) :
    ∀ (qs : List Nat) (contents : List (Nat × List PyVal)),
    qs.Nodup →
    (∀ q ∈ qs, putRaises q = false →
      ((lookupA q contents).getD []).length < queueMaxsize) →
    (bcastLoop ev putRaises contents qs).blockedAt = none ∧
    (bcastLoop ev putRaises contents qs).delivered
      = qs.filter (fun q => !putRaises q) ∧
    (bcastLoop ev putRaises contents qs).dead
      = qs.filter (fun q => putRaises q) ∧
    (∀ q, q ∉ qs →
      lookupA q (bcastLoop ev putRaises contents qs).contents
        = lookupA q contents) ∧
    (∀ q ∈ qs, putRaises q = false →
      (lookupA q (bcastLoop ev putRaises contents qs).contents).getD []
        = (lookupA q contents).getD [] ++ [ev]) := by
  intro qs
  induction qs with
  | nil =>
    intro contents _ _
    refine ⟨rfl, rfl, rfl, fun q _ => rfl, fun q hq => absurd hq (List.not_mem_nil q)⟩
  | cons a rest ih =>
    intro contents hnd hroom
    have har : a ∉ rest := (List.nodup_cons.mp hnd).1
    have hrest : rest.Nodup := (List.nodup_cons.mp hnd).2
    cases hr : putRaises a with
    | true =>
      have ihr := ih contents hrest
        (fun q hq hf => hroom q (List.mem_cons_of_mem a hq) hf)
      obtain ⟨ib, id, idd, iu, ic⟩ := ihr
      have hstep : bcastLoop ev putRaises contents (a :: rest)
          = ⟨(bcastLoop ev putRaises contents rest).contents,
             (bcastLoop ev putRaises contents rest).delivered,
             a :: (bcastLoop ev putRaises contents rest).dead,
             (bcastLoop ev putRaises contents rest).blockedAt⟩ := by
        simp [bcastLoop, hr]
      rw [hstep]
      refine ⟨ib, ?_, ?_, ?_, ?_⟩
      · simpa [List.filter_cons, hr] using id
      · simpa [List.filter_cons, hr] using idd
      · intro q hq
        exact iu q (fun hin => hq (List.mem_cons_of_mem a hin))
      · intro q hq hf
        rcases List.mem_cons.mp hq with hq | hq
        · subst hq
          rw [hr] at hf
          exact absurd hf (by simp)
        · exact ic q hq hf
    | false =>
      have hfull : ¬ queueMaxsize ≤ ((lookupA a contents).getD []).length := by
        exact Nat.not_le_of_lt (hroom a (List.mem_cons_self a rest) hr)
      have hlookup : ∀ q, q ≠ a →
          lookupA q (queuePut contents a ev) = lookupA q contents := by
        intro q hq
        exact lookupA_setA_ne _ _ hq
      have ihr := ih (queuePut contents a ev) hrest
        (fun q hq hf => by
          have hqa : q ≠ a := fun he => har (he ▸ hq)
          rw [hlookup q hqa]
          exact hroom q (List.mem_cons_of_mem a hq) hf)
      obtain ⟨ib, id, idd, iu, ic⟩ := ihr
      have hstep : bcastLoop ev putRaises contents (a :: rest)
          = ⟨(bcastLoop ev putRaises (queuePut contents a ev) rest).contents,
             a :: (bcastLoop ev putRaises (queuePut contents a ev) rest).delivered,
             (bcastLoop ev putRaises (queuePut contents a ev) rest).dead,
             (bcastLoop ev putRaises (queuePut contents a ev) rest).blockedAt⟩ := by
        simp [bcastLoop, hr, hfull]
      rw [hstep]
      refine ⟨ib, ?_, ?_, ?_, ?_⟩
      · simpa [List.filter_cons, hr] using id
      · simpa [List.filter_cons, hr] using idd
      · intro q hq
        have hqa : q ≠ a := fun he => hq (he ▸ List.mem_cons_self a rest)
        have hqr : q ∉ rest := fun hin => hq (List.mem_cons_of_mem a hin)
        rw [iu q hqr, hlookup q hqa]
      · intro q hq hf
        rcases List.mem_cons.mp hq with hq | hq
        · subst hq
          rw [iu q har, queuePut, lookupA_setA_self]
          rfl
        · have hqa : q ≠ a := fun he => har (he ▸ hq)
          rw [ic q hq hf, hlookup q hqa]

/-- Removing queues none of which equals the head leaves the head in
place. -/
theorem removeQueues_cons_of_not_mem (a : Nat) :
    ∀ (d l : List Nat), a ∉ d → removeQueues (a :: l) d = a :: removeQueues l d := by
  intro d
  induction d with
  | nil => intro l _; rfl
  | cons x xs ih =>
    intro l hmem
    have hxa : x ≠ a := fun he => hmem (he ▸ List.mem_cons_self x xs)
    have hax : ¬ a = x := fun he => hxa he.symm
    have hxs : a ∉ xs := fun hin => hmem (List.mem_cons_of_mem x hin)
    have h1 : (a :: l).erase x = a :: l.erase x :=
      List.erase_cons_tail (by simp [hax])
    show removeQueues ((a :: l).erase x) xs = a :: removeQueues (l.erase x) xs
    rw [h1, ih (l.erase x) hxs]

/-- The eviction pass of `_broadcast_event` — removing the first occurrence
of every dead queue — leaves exactly the queues whose put did not raise,
given that queue identities in the key's list are distinct. -/
theorem removeQueues_filter (p : Nat → Bool) :
    ∀ (qs : List Nat), qs.Nodup →
    removeQueues qs (qs.filter p) = qs.filter (fun q => !p q) := by
  intro qs
  induction qs with
  | nil => intro _; rfl
  | cons a l ih =>
    intro hnd
    have hal : a ∉ l := (List.nodup_cons.mp hnd).1
    have hl : l.Nodup := (List.nodup_cons.mp hnd).2
    cases hp : p a with
    | false =>
      have hnotmem : a ∉ l.filter p := fun hin => hal (List.mem_of_mem_filter hin)
      rw [List.filter_cons_of_neg (by simp [hp]),
        removeQueues_cons_of_not_mem a _ l hnotmem, ih hl,
        List.filter_cons_of_pos (by simp [hp])]
    | true =>
      have h1 : removeQueues (a :: l) (a :: l.filter p)
          = removeQueues l (l.filter p) := by
        show removeQueues ((a :: l).erase a) (l.filter p)
          = removeQueues l (l.filter p)
        rw [List.erase_cons_head]
      rw [List.filter_cons_of_pos (by simp [hp]), h1,
        ih hl, List.filter_cons_of_neg (by simp [hp])]

/-- Claim C5: within one `_broadcast_event` call (here, one in which no
non-raising queue is full, so every put that does not raise returns, and
with distinct queue objects in the key's list), every queue whose put
raises is logged and evicted (`dead_queues`, exactly the raising queues),
every other attached queue still receives the envelope of this same call,
and the watcher dicts are untouched even when the evictions empty the
key's queue list — `_broadcast_event` never calls `_stop_watcher`. -/
theorem c5_dead_queue_isolated (st : SSEManagerState) (key : WatchKey)
    (eventType : String) (obj : PyVal) (putRaises : Nat → Bool)
    (hnd : (queuesOf st key).Nodup)
    (hroom : ∀ q ∈ queuesOf st key, putRaises q = false →
      (contentsOf st q).length < queueMaxsize) :
    (broadcastEvent st key eventType obj putRaises).isBlocked = false ∧
    (broadcastEvent st key eventType obj putRaises).evictedQueues
      = (queuesOf st key).filter (fun q => putRaises q) ∧
    (broadcastEvent st key eventType obj putRaises).deliveredQueues
      = (queuesOf st key).filter (fun q => !putRaises q) ∧
    queuesOf (broadcastEvent st key eventType obj putRaises).newState key
      = (queuesOf st key).filter (fun q => !putRaises q) ∧
    (∀ q ∈ queuesOf st key, putRaises q = false →
      contentsOf (broadcastEvent st key eventType obj putRaises).newState q
        = contentsOf st q ++ [eventEnvelope eventType obj]) ∧
    (broadcastEvent st key eventType obj putRaises).newState.namespaceWatchers
      = st.namespaceWatchers ∧
    (broadcastEvent st key eventType obj putRaises).newState.singleWatchers
      = st.singleWatchers ∧
    (broadcastEvent st key eventType obj putRaises).newState.eventWatchers
      = st.eventWatchers := by
  obtain ⟨hb, hd, hdd, _, hc⟩ :=
    bcastLoop_no_block (eventEnvelope eventType obj) putRaises
      (queuesOf st key) st.queueContents hnd hroom
  have hout : broadcastEvent st key eventType obj putRaises
      = .done
          { st with
            queueContents :=
              (bcastLoop (eventEnvelope eventType obj) putRaises
                st.queueContents (queuesOf st key)).contents
            clientQueues :=
              setA key
                (removeQueues (queuesOf st key)
                  (bcastLoop (eventEnvelope eventType obj) putRaises
                    st.queueContents (queuesOf st key)).dead)
                st.clientQueues }
          (bcastLoop (eventEnvelope eventType obj) putRaises
            st.queueContents (queuesOf st key)).delivered
          (bcastLoop (eventEnvelope eventType obj) putRaises
            st.queueContents (queuesOf st key)).dead := by
    simp only [broadcastEvent, hb]
  rw [hout]
  refine ⟨rfl, hdd, hd, ?_, ?_, rfl, rfl, rfl⟩
  · show (lookupA key (setA key _ st.clientQueues)).getD [] = _
    rw [lookupA_setA_self, Option.getD_some, hdd, removeQueues_filter _ _ hnd]
  · intro q hq hf
    exact hc q hq hf

/-- Claim C5, witness: a key with two distinct queues where the put to
queue 5 raises: 5 is evicted while 6 still receives the envelope, and the
watcher dicts stay as they were. -/
theorem c5_dead_queue_isolated_witness :
    (broadcastEvent
        { initManagerState with
          namespaceWatchers := [(nsKeyOf "w".toList, 0)]
          clientQueues := [(nsKeyOf "w".toList, [5, 6])] }
        (nsKeyOf "w".toList) "ADDED" (PyVal.str "o") (fun q => q == 5)).evictedQueues
      = (queuesOf
          { initManagerState with
            namespaceWatchers := [(nsKeyOf "w".toList, 0)]
            clientQueues := [(nsKeyOf "w".toList, [5, 6])] }
          (nsKeyOf "w".toList)).filter (fun q => q == 5) ∧
    (∀ q ∈ queuesOf
          { initManagerState with
            namespaceWatchers := [(nsKeyOf "w".toList, 0)]
            clientQueues := [(nsKeyOf "w".toList, [5, 6])] }
          (nsKeyOf "w".toList), (q == 5) = false →
      contentsOf
        (broadcastEvent
          { initManagerState with
            namespaceWatchers := [(nsKeyOf "w".toList, 0)]
            clientQueues := [(nsKeyOf "w".toList, [5, 6])] }
          (nsKeyOf "w".toList) "ADDED" (PyVal.str "o") (fun q => q == 5)).newState q
        = contentsOf
            { initManagerState with
              namespaceWatchers := [(nsKeyOf "w".toList, 0)]
              clientQueues := [(nsKeyOf "w".toList, [5, 6])] }
            q ++ [eventEnvelope "ADDED" (PyVal.str "o")]) ∧
    (broadcastEvent
        { initManagerState with
          namespaceWatchers := [(nsKeyOf "w".toList, 0)]
          clientQueues := [(nsKeyOf "w".toList, [5, 6])] }
        (nsKeyOf "w".toList) "ADDED" (PyVal.str "o") (fun q => q == 5)).newState.namespaceWatchers
      = [(nsKeyOf "w".toList, 0)] :=
  ⟨(c5_dead_queue_isolated _ _ "ADDED" (PyVal.str "o") (fun q => q == 5)
      (by decide) (by decide)).2.1,
   (c5_dead_queue_isolated _ _ "ADDED" (PyVal.str "o") (fun q => q == 5)
      (by decide) (by decide)).2.2.2.2.1,
   (c5_dead_queue_isolated _ _ "ADDED" (PyVal.str "o") (fun q => q == 5)
      (by decide) (by decide)).2.2.2.2.2.1⟩

/-- `_stop_watcher` never touches the client-queue table or the queue
heap, whichever dispatch branch runs. -/
theorem stopWatcher_preserves_queues (key : WatchKey) (ts : TState) :
    (stopWatcher key ts).ms.clientQueues = ts.ms.clientQueues ∧
    (stopWatcher key ts).ms.queueContents = ts.ms.queueContents := by
  unfold stopWatcher
  repeat' split
  all_goals simp

/-- `_stop_watcher` on a key with no watcher stored in any of the three
dicts is the identity: every `pop` misses and no watcher is stopped. -/
theorem stopWatcher_of_no_watcher (key : WatchKey) (ts : TState)
    (h1 : lookupA key ts.ms.namespaceWatchers = none)
    (h2 : lookupA key ts.ms.singleWatchers = none)
    (h3 : lookupA key ts.ms.eventWatchers = none) :
    stopWatcher key ts = ts := by
  unfold stopWatcher
  simp only [h1, h2, h3]
  repeat' split
  all_goals rfl

/-- Claim C10: `unregister_client(key, q)` with a queue `q` never
registered under `key` (the error path of a session whose snapshot fetch
failed before registration) returns normally (the embedding is total — no
exception), removes no other client's queue (every key's queue list reads
the same afterwards) and touches no queue's contents; if other clients
remain under the key nothing else happens, and if the key's list is empty
and no watcher exists for the key in any dict, the stop path is a no-op on
the watcher tables and stops nothing. -/
theorem c10_unregister_unknown_queue (key : WatchKey) (q : Nat) (ts : TState)
    (hq : q ∉ queuesOf ts.ms key) :
    (∀ k, queuesOf (unregisterClient key q ts).ms k = queuesOf ts.ms k) ∧
    (unregisterClient key q ts).ms.queueContents = ts.ms.queueContents ∧
    (queuesOf ts.ms key ≠ [] →
      (unregisterClient key q ts).ms.namespaceWatchers = ts.ms.namespaceWatchers ∧
      (unregisterClient key q ts).ms.singleWatchers = ts.ms.singleWatchers ∧
      (unregisterClient key q ts).ms.eventWatchers = ts.ms.eventWatchers ∧
      (unregisterClient key q ts).log = ts.log) ∧
    (lookupA key ts.ms.namespaceWatchers = none →
      lookupA key ts.ms.singleWatchers = none →
      lookupA key ts.ms.eventWatchers = none →
      (unregisterClient key q ts).ms.namespaceWatchers = ts.ms.namespaceWatchers ∧
      (unregisterClient key q ts).ms.singleWatchers = ts.ms.singleWatchers ∧
      (unregisterClient key q ts).ms.eventWatchers = ts.ms.eventWatchers ∧
      (unregisterClient key q ts).log = ts.log) := by
  by_cases hlen : (queuesOf ts.ms key).length = 0
  · have hstep : unregisterClient key q ts
        = stopWatcher key
            { ts with ms := { ts.ms with
                clientQueues := setA key (queuesOf ts.ms key) ts.ms.clientQueues } } := by
      simp only [unregisterClient, if_neg hq]
      rw [if_pos hlen]
    rw [hstep]
    have hnil : queuesOf ts.ms key = [] := List.length_eq_zero.mp hlen
    refine ⟨?_, (stopWatcher_preserves_queues key _).2, ?_, ?_⟩
    · intro k
      have hcq := (stopWatcher_preserves_queues key
        { ts with ms := { ts.ms with
            clientQueues := setA key (queuesOf ts.ms key) ts.ms.clientQueues } }).1
      show (lookupA k (stopWatcher key _).ms.clientQueues).getD [] = _
      rw [hcq]
      by_cases hk : k = key
      · subst hk
        show (lookupA k (setA k (queuesOf ts.ms k) ts.ms.clientQueues)).getD [] = _
        rw [lookupA_setA_self]
        rfl
      · show (lookupA k (setA key (queuesOf ts.ms key) ts.ms.clientQueues)).getD [] = _
        rw [lookupA_setA_ne _ _ hk]
        rfl
    · intro hne
      exact absurd hnil hne
    · intro h1 h2 h3
      rw [stopWatcher_of_no_watcher key
        { ts with ms := { ts.ms with
            clientQueues := setA key (queuesOf ts.ms key) ts.ms.clientQueues } }
        h1 h2 h3]
      exact ⟨rfl, rfl, rfl, rfl⟩
  · have hstep : unregisterClient key q ts
        = { ts with ms := { ts.ms with
              clientQueues := setA key (queuesOf ts.ms key) ts.ms.clientQueues } } := by
      simp only [unregisterClient, if_neg hq]
      rw [if_neg hlen]
    rw [hstep]
    refine ⟨?_, rfl, fun _ => ⟨rfl, rfl, rfl, rfl⟩, fun _ _ _ => ⟨rfl, rfl, rfl, rfl⟩⟩
    intro k
    by_cases hk : k = key
    · subst hk
      show (lookupA k (setA k (queuesOf ts.ms k) ts.ms.clientQueues)).getD [] = _
      rw [lookupA_setA_self]
      rfl
    · show (lookupA k (setA key (queuesOf ts.ms key) ts.ms.clientQueues)).getD [] = _
      rw [lookupA_setA_ne _ _ hk]
      rfl

/-- Claim C10, witness: unregistering an unknown queue 9 under a key with
one other client (4), and under a key with no queues and no watcher. -/
theorem c10_unregister_unknown_queue_witness :
    (∀ k, queuesOf
        (unregisterClient (nsKeyOf "a".toList) 9
          { initTState with ms := { initManagerState with
              clientQueues := [(nsKeyOf "a".toList, [4])] } }).ms k
      = queuesOf
          { initManagerState with
            clientQueues := [(nsKeyOf "a".toList, [4])] } k) ∧
    ((unregisterClient (nsKeyOf "b".toList) 9 initTState).ms.namespaceWatchers
        = initManagerState.namespaceWatchers ∧
      (unregisterClient (nsKeyOf "b".toList) 9 initTState).ms.singleWatchers
        = initManagerState.singleWatchers ∧
      (unregisterClient (nsKeyOf "b".toList) 9 initTState).ms.eventWatchers
        = initManagerState.eventWatchers ∧
      (unregisterClient (nsKeyOf "b".toList) 9 initTState).log = initTState.log) :=
  ⟨(c10_unregister_unknown_queue (nsKeyOf "a".toList) 9
      { initTState with ms := { initManagerState with
          clientQueues := [(nsKeyOf "a".toList, [4])] } } (by decide)).1,
   (c10_unregister_unknown_queue (nsKeyOf "b".toList) 9 initTState
      (by decide)).2.2.2 rfl rfl rfl⟩

/-- Reading back the key just stored. -/
theorem lookupA_setA_self_getD {κ α : Type} [DecidableEq κ] (k : κ) (v : α)
    (l : List (κ × α)) (d : α) : (lookupA k (setA k v l)).getD d = v := by
  rw [lookupA_setA_self]
  rfl

/-- One `register_namespace_watch` critical section when a watcher for the
key is already stored: only the queue list grows. -/
theorem registerNamespaceWatch_of_present (ns : List Char) (q : Nat) (ts : TState)
    (w : Nat) (h : lookupA (nsKeyOf ns) ts.ms.namespaceWatchers = some w) :
    registerNamespaceWatch ns q ts
      = { ts with ms := { ts.ms with
          clientQueues := setA (nsKeyOf ns)
            (queuesOf ts.ms (nsKeyOf ns) ++ [q]) ts.ms.clientQueues } } := by
  simp only [registerNamespaceWatch, h]

/-- One `register_namespace_watch` critical section when no watcher for the
key is stored: the queue list grows and a fresh watcher is constructed,
stored and started. -/
theorem registerNamespaceWatch_of_absent (ns : List Char) (q : Nat) (ts : TState)
    (h : lookupA (nsKeyOf ns) ts.ms.namespaceWatchers = none) :
    registerNamespaceWatch ns q ts
      = { ms := { ts.ms with
            namespaceWatchers :=
              setA (nsKeyOf ns) ts.nextWatcherId ts.ms.namespaceWatchers
            clientQueues := setA (nsKeyOf ns)
              (queuesOf ts.ms (nsKeyOf ns) ++ [q]) ts.ms.clientQueues }
          nextWatcherId := ts.nextWatcherId + 1
          log := ts.log ++ [WatcherTraceEv.constructed (nsKeyOf ns) ts.nextWatcherId] } := by
  simp only [registerNamespaceWatch, h]

/-- Running `register_namespace_watch` calls while a watcher is already
stored never constructs another one: the watcher dicts, the id counter and
the log are untouched, and the key's queue list is extended in call order. -/
theorem runRegs_of_present (ns : List Char) (w : Nat) :
    ∀ (qs : List Nat) (ts : TState),
    lookupA (nsKeyOf ns) ts.ms.namespaceWatchers = some w →
    (runNamespaceRegs ns qs ts).ms.namespaceWatchers = ts.ms.namespaceWatchers ∧
    (runNamespaceRegs ns qs ts).nextWatcherId = ts.nextWatcherId ∧
    (runNamespaceRegs ns qs ts).log = ts.log ∧
    queuesOf (runNamespaceRegs ns qs ts).ms (nsKeyOf ns)
      = queuesOf ts.ms (nsKeyOf ns) ++ qs := by
  intro qs
  induction qs with
  | nil =>
    intro ts _
    refine ⟨rfl, rfl, rfl, ?_⟩
    rw [List.append_nil]
    rfl
  | cons a rest ih =>
    intro ts h
    have hrun : runNamespaceRegs ns (a :: rest) ts
        = runNamespaceRegs ns rest (registerNamespaceWatch ns a ts) := rfl
    rw [hrun, registerNamespaceWatch_of_present ns a ts w h]
    have h1 : lookupA (nsKeyOf ns)
        ({ ts with ms := { ts.ms with
            clientQueues := setA (nsKeyOf ns)
              (queuesOf ts.ms (nsKeyOf ns) ++ [a]) ts.ms.clientQueues } }
          : TState).ms.namespaceWatchers = some w := h
    obtain ⟨i1, i2, i3, i4⟩ := ih _ h1
    refine ⟨i1, i2, i3, ?_⟩
    rw [i4]
    show (lookupA (nsKeyOf ns) (setA (nsKeyOf ns)
        (queuesOf ts.ms (nsKeyOf ns) ++ [a]) ts.ms.clientQueues)).getD [] ++ rest = _
    rw [lookupA_setA_self_getD]
    simp

/-- Running one or more `register_namespace_watch` calls for a key with no
stored watcher constructs exactly one watcher (identity = the current
counter), logs exactly that construction, and queues every caller in
order. -/
theorem runRegs_of_absent (ns : List Char) (q : Nat) (rest : List Nat) (ts : TState)
    (h : lookupA (nsKeyOf ns) ts.ms.namespaceWatchers = none) :
    (runNamespaceRegs ns (q :: rest) ts).ms.namespaceWatchers
      = setA (nsKeyOf ns) ts.nextWatcherId ts.ms.namespaceWatchers ∧
    (runNamespaceRegs ns (q :: rest) ts).log
      = ts.log ++ [WatcherTraceEv.constructed (nsKeyOf ns) ts.nextWatcherId] ∧
    queuesOf (runNamespaceRegs ns (q :: rest) ts).ms (nsKeyOf ns)
      = queuesOf ts.ms (nsKeyOf ns) ++ (q :: rest) := by
  have hrun : runNamespaceRegs ns (q :: rest) ts
      = runNamespaceRegs ns rest (registerNamespaceWatch ns q ts) := rfl
  have hreg := registerNamespaceWatch_of_absent ns q ts h
  have hW1 : (registerNamespaceWatch ns q ts).ms.namespaceWatchers
      = setA (nsKeyOf ns) ts.nextWatcherId ts.ms.namespaceWatchers := by
    rw [hreg]
  have hl1 : lookupA (nsKeyOf ns) (registerNamespaceWatch ns q ts).ms.namespaceWatchers
      = some ts.nextWatcherId := by
    rw [hW1]
    exact lookupA_setA_self _ _ _
  have hlog1 : (registerNamespaceWatch ns q ts).log
      = ts.log ++ [WatcherTraceEv.constructed (nsKeyOf ns) ts.nextWatcherId] := by
    rw [hreg]
  have hq1 : queuesOf (registerNamespaceWatch ns q ts).ms (nsKeyOf ns)
      = queuesOf ts.ms (nsKeyOf ns) ++ [q] := by
    rw [hreg]
    exact lookupA_setA_self_getD _ _ _ _
  obtain ⟨i1, _, i3, i4⟩ :=
    runRegs_of_present ns ts.nextWatcherId rest (registerNamespaceWatch ns q ts) hl1
  rw [hrun]
  refine ⟨by rw [i1, hW1], by rw [i3, hlog1], ?_⟩
  rw [i4, hq1]
  simp

/-- `_stop_watcher` on an ns-prefixed key whose (single) watcher entry is
stored pops exactly that entry and logs the stop. -/
theorem stopWatcher_ns_pop (key : WatchKey) (ts : TState) (w : Nat)
    (W : List (WatchKey × Nat))
    (hkey : startsWithL "ns:".toList key = true)
    (hW : ts.ms.namespaceWatchers = setA key w W)
    (hnone : lookupA key W = none) :
    stopWatcher key ts
      = { ts with
          ms := { ts.ms with namespaceWatchers := W }
          log := ts.log ++ [WatcherTraceEv.stoppedW key w] } := by
  have hl : lookupA key ts.ms.namespaceWatchers = some w := by
    rw [hW]
    exact lookupA_setA_self key w W
  have he : eraseA key ts.ms.namespaceWatchers = W := by
    rw [hW]
    exact eraseA_setA_of_lookupA_none w hnone
  simp only [stopWatcher, hkey, hl, he, if_true]

/-- A sequence of `unregister_client` critical sections, one per remaining
client of the key (in any interleaving order `rem`, a permutation of the
key's queue list), with the key's single watcher entry stored: every
unregister before the last leaves the watcher stored and logs nothing; the
last one empties the queue list, pops the watcher and logs exactly one
stop. -/
theorem runUnregs_teardown (key : WatchKey) (w : Nat)
    (hkey : startsWithL "ns:".toList key = true) :
    ∀ (rem : List Nat) (ts : TState) (W : List (WatchKey × Nat)),
    rem ≠ [] →
    ts.ms.namespaceWatchers = setA key w W →
    lookupA key W = none →
    List.Perm (queuesOf ts.ms key) rem →
    ((runUnregs key rem ts).ms.namespaceWatchers = W ∧
     (runUnregs key rem ts).ms.singleWatchers = ts.ms.singleWatchers ∧
     (runUnregs key rem ts).ms.eventWatchers = ts.ms.eventWatchers ∧
     (runUnregs key rem ts).log = ts.log ++ [WatcherTraceEv.stoppedW key w] ∧
     queuesOf (runUnregs key rem ts).ms key = []) ∧
    (∀ i, i < rem.length →
      (runUnregs key (rem.take i) ts).ms.namespaceWatchers = setA key w W ∧
      (runUnregs key (rem.take i) ts).log = ts.log ∧
      List.Perm (queuesOf (runUnregs key (rem.take i) ts).ms key) (rem.drop i)) := by
  intro rem
  induction rem with
  | nil =>
    intro ts W hne _ _ _
    exact absurd rfl hne
  | cons a t ih =>
    intro ts W _ hW hnone hperm
    have ha : a ∈ queuesOf ts.ms key := hperm.mem_iff.2 (List.mem_cons_self a t)
    have herase : List.Perm ((queuesOf ts.ms key).erase a) t := by
      have h2 := hperm.erase a
      rwa [List.erase_cons_head] at h2
    by_cases ht : t = []
    · subst ht
      have hqnil : (queuesOf ts.ms key).erase a = [] := herase.eq_nil
      have hW1 : ({ ts with ms := { ts.ms with
          clientQueues := setA key [] ts.ms.clientQueues } } : TState).ms.namespaceWatchers
          = setA key w W := hW
      have hstop := stopWatcher_ns_pop key
        { ts with ms := { ts.ms with
            clientQueues := setA key [] ts.ms.clientQueues } } w W hkey hW1 hnone
      have hstep : runUnregs key [a] ts = stopWatcher key
          { ts with ms := { ts.ms with
              clientQueues := setA key [] ts.ms.clientQueues } } := by
        show unregisterClient key a ts = _
        simp only [unregisterClient, if_pos ha, hqnil, List.length_nil]
        simp
      refine ⟨?_, ?_⟩
      · rw [hstep, hstop]
        refine ⟨rfl, rfl, rfl, rfl, ?_⟩
        exact lookupA_setA_self_getD _ _ _ _
      · intro i hi
        have hi' : i < 1 := by simpa using hi
        have hi0 : i = 0 := Nat.lt_one_iff.mp hi'
        subst hi0
        exact ⟨hW, rfl, hperm⟩
    · have hlenne : ¬ ((queuesOf ts.ms key).erase a).length = 0 := by
        rw [herase.length_eq]
        intro hc
        exact ht (List.length_eq_zero.mp hc)
      have hstep : unregisterClient key a ts
          = { ts with ms := { ts.ms with
              clientQueues := setA key ((queuesOf ts.ms key).erase a)
                ts.ms.clientQueues } } := by
        simp only [unregisterClient, if_pos ha]
        rw [if_neg hlenne]
      set ts1 : TState := { ts with ms := { ts.ms with
          clientQueues := setA key ((queuesOf ts.ms key).erase a)
            ts.ms.clientQueues } } with hts1
      have hW1 : ts1.ms.namespaceWatchers = setA key w W := hW
      have hq1 : queuesOf ts1.ms key = (queuesOf ts.ms key).erase a :=
        lookupA_setA_self_getD _ _ _ _
      have hperm1 : List.Perm (queuesOf ts1.ms key) t := by
        rw [hq1]
        exact herase
      obtain ⟨F, I⟩ := ih ts1 W ht hW1 hnone hperm1
      have hfold : runUnregs key (a :: t) ts = runUnregs key t ts1 := by
        show runUnregs key t (unregisterClient key a ts) = _
        rw [hstep]
      refine ⟨?_, ?_⟩
      · rw [hfold]
        exact ⟨F.1, F.2.1, F.2.2.1, F.2.2.2.1, F.2.2.2.2⟩
      · intro i hi
        cases i with
        | zero => exact ⟨hW, rfl, hperm⟩
        | succ j =>
          have hj : j < t.length := by simpa using hi
          have hfold2 : runUnregs key ((a :: t).take (j + 1)) ts
              = runUnregs key (t.take j) ts1 := by
            rw [List.take_succ_cons]
            show runUnregs key (t.take j) (unregisterClient key a ts) = _
            rw [hstep]
          obtain ⟨J1, J2, J3⟩ := I j hj
          rw [hfold2, List.drop_succ_cons]
          exact ⟨J1, J2, J3⟩

/-- A construction event for the key counts once. -/
theorem constructedCount_single_self (k : WatchKey) (w : Nat) :
    constructedCount k [WatcherTraceEv.constructed k w] = 1 := by
  simp [constructedCount, List.filter]

/-- A stop event never counts as a construction. -/
theorem constructedCount_single_stop (k k' : WatchKey) (w : Nat) :
    constructedCount k [WatcherTraceEv.stoppedW k' w] = 0 := by
  simp [constructedCount, List.filter]

/-- A stop event for the key counts once. -/
theorem stoppedCount_single_self (k : WatchKey) (w : Nat) :
    stoppedCount k [WatcherTraceEv.stoppedW k w] = 1 := by
  simp [stoppedCount, List.filter]

/-- A construction event never counts as a stop. -/
theorem stoppedCount_single_constructed (k k' : WatchKey) (w : Nat) :
    stoppedCount k [WatcherTraceEv.constructed k' w] = 0 := by
  simp [stoppedCount, List.filter]

/-- Claim C3: for any interleaving of N concurrent `register_namespace_watch`
calls for the same watch key (each call is one critical section under the
key's lock, so an interleaving is an order of atomic register steps),
starting with no watcher and no queues for the key: exactly one watcher is
constructed and stored; the key holds at most one stored watcher entry at
every point of the whole run; after the registers, for any order of the N
matching `unregister_client` calls, the watcher stays stored and unstopped
through every proper prefix of the unregisters, is popped and stopped
exactly by the unregister that empties the key's queue list (the last one),
exactly once, and no further watcher is ever constructed afterwards without
a new register. -/
theorem c3_exactly_one_watcher (ns : List Char) (qids unregOrder : List Nat)
    (ts0 : TState)
    (hne : qids ≠ [])
    (hperm : List.Perm unregOrder qids)
    (hw0 : lookupA (nsKeyOf ns) ts0.ms.namespaceWatchers = none)
    (hq0 : queuesOf ts0.ms (nsKeyOf ns) = [])
    (hl0 : ts0.log = []) :
    constructedCount (nsKeyOf ns) (runNamespaceRegs ns qids ts0).log = 1 ∧
    nsWatcherLive (runNamespaceRegs ns qids ts0) (nsKeyOf ns) = true ∧
    (∀ i, countKeyEntries (nsKeyOf ns)
        (runNamespaceRegs ns (qids.take i) ts0).ms.namespaceWatchers ≤ 1) ∧
    (∀ i, countKeyEntries (nsKeyOf ns)
        (runUnregs (nsKeyOf ns) (unregOrder.take i)
          (runNamespaceRegs ns qids ts0)).ms.namespaceWatchers ≤ 1) ∧
    (∀ i, i < unregOrder.length →
      nsWatcherLive (runUnregs (nsKeyOf ns) (unregOrder.take i)
          (runNamespaceRegs ns qids ts0)) (nsKeyOf ns) = true ∧
      stoppedCount (nsKeyOf ns) (runUnregs (nsKeyOf ns) (unregOrder.take i)
          (runNamespaceRegs ns qids ts0)).log = 0) ∧
    nsWatcherLive (runUnregs (nsKeyOf ns) unregOrder
        (runNamespaceRegs ns qids ts0)) (nsKeyOf ns) = false ∧
    stoppedCount (nsKeyOf ns) (runUnregs (nsKeyOf ns) unregOrder
        (runNamespaceRegs ns qids ts0)).log = 1 ∧
    constructedCount (nsKeyOf ns) (runUnregs (nsKeyOf ns) unregOrder
        (runNamespaceRegs ns qids ts0)).log = 1 ∧
    queuesOf (runUnregs (nsKeyOf ns) unregOrder
        (runNamespaceRegs ns qids ts0)).ms (nsKeyOf ns) = [] := by
  obtain ⟨q, rest, rfl⟩ : ∃ q rest, qids = q :: rest := by
    cases qids with
    | nil => exact absurd rfl hne
    | cons q rest => exact ⟨q, rest, rfl⟩
  have hkey : startsWithL "ns:".toList (nsKeyOf ns) = true := by
    show startsWithL "ns:".toList ("ns:".toList ++ ns) = true
    exact startsWithL_append _ _
  obtain ⟨R1, R2, R3⟩ := runRegs_of_absent ns q rest ts0 hw0
  have hcount1 : constructedCount (nsKeyOf ns)
      (runNamespaceRegs ns (q :: rest) ts0).log = 1 := by
    rw [R2, hl0]
    simpa using constructedCount_single_self (nsKeyOf ns) ts0.nextWatcherId
  have hlive1 : nsWatcherLive (runNamespaceRegs ns (q :: rest) ts0) (nsKeyOf ns)
      = true := by
    show (lookupA (nsKeyOf ns)
      (runNamespaceRegs ns (q :: rest) ts0).ms.namespaceWatchers).isSome = true
    rw [R1, lookupA_setA_self]
    rfl
  have hq1 : queuesOf (runNamespaceRegs ns (q :: rest) ts0).ms (nsKeyOf ns)
      = q :: rest := by
    rw [R3, hq0]
    rfl
  have hune : unregOrder ≠ [] := by
    intro hc
    subst hc
    exact List.cons_ne_nil q rest hperm.symm.eq_nil
  have hperm1 : List.Perm
      (queuesOf (runNamespaceRegs ns (q :: rest) ts0).ms (nsKeyOf ns)) unregOrder := by
    rw [hq1]
    exact hperm.symm
  obtain ⟨F, I⟩ := runUnregs_teardown (nsKeyOf ns) ts0.nextWatcherId hkey unregOrder
    (runNamespaceRegs ns (q :: rest) ts0) ts0.ms.namespaceWatchers hune R1 hw0 hperm1
  refine ⟨hcount1, hlive1, ?_, ?_, ?_, ?_, ?_, ?_, F.2.2.2.2⟩
  · intro i
    cases i with
    | zero =>
      show countKeyEntries (nsKeyOf ns) ts0.ms.namespaceWatchers ≤ 1
      rw [countKeyEntries_of_lookupA_none hw0]
      exact Nat.zero_le 1
    | succ j =>
      obtain ⟨P1, _, _⟩ := runRegs_of_absent ns q (rest.take j) ts0 hw0
      show countKeyEntries (nsKeyOf ns)
        (runNamespaceRegs ns ((q :: rest).take (j + 1)) ts0).ms.namespaceWatchers ≤ 1
      rw [List.take_succ_cons, P1, countKeyEntries_setA_of_lookupA_none _ hw0]
  · intro i
    by_cases hi : i < unregOrder.length
    · obtain ⟨J1, _, _⟩ := I i hi
      rw [J1, countKeyEntries_setA_of_lookupA_none _ hw0]
    · have htake : unregOrder.take i = unregOrder :=
        List.take_of_length_le (Nat.le_of_not_lt hi)
      rw [htake, F.1, countKeyEntries_of_lookupA_none hw0]
      exact Nat.zero_le 1
  · intro i hi
    obtain ⟨J1, J2, _⟩ := I i hi
    constructor
    · show (lookupA (nsKeyOf ns)
        (runUnregs (nsKeyOf ns) (unregOrder.take i)
          (runNamespaceRegs ns (q :: rest) ts0)).ms.namespaceWatchers).isSome = true
      rw [J1, lookupA_setA_self]
      rfl
    · rw [J2, R2, hl0]
      simpa using stoppedCount_single_constructed (nsKeyOf ns) (nsKeyOf ns)
        ts0.nextWatcherId
  · show (lookupA (nsKeyOf ns)
      (runUnregs (nsKeyOf ns) unregOrder
        (runNamespaceRegs ns (q :: rest) ts0)).ms.namespaceWatchers).isSome = false
    rw [F.1, hw0]
    rfl
  · rw [F.2.2.2.1, R2, hl0]
    simp [stoppedCount, List.filter]
  · rw [F.2.2.2.1, R2, hl0]
    simp [constructedCount, List.filter]

/-- Claim C3, witness: two clients 1 and 2 register for namespace a (in
that interleaving), then unregister in the opposite order: one watcher was
constructed, it is stopped once, and the key's queue list ends empty. -/
theorem c3_exactly_one_watcher_witness :
    nsWatcherLive
        (runUnregs (nsKeyOf "a".toList) [2, 1]
          (runNamespaceRegs "a".toList [1, 2] initTState)) (nsKeyOf "a".toList)
      = false ∧
    stoppedCount (nsKeyOf "a".toList)
        (runUnregs (nsKeyOf "a".toList) [2, 1]
          (runNamespaceRegs "a".toList [1, 2] initTState)).log = 1 ∧
    constructedCount (nsKeyOf "a".toList)
        (runUnregs (nsKeyOf "a".toList) [2, 1]
          (runNamespaceRegs "a".toList [1, 2] initTState)).log = 1 ∧
    queuesOf
        (runUnregs (nsKeyOf "a".toList) [2, 1]
          (runNamespaceRegs "a".toList [1, 2] initTState)).ms (nsKeyOf "a".toList)
      = [] :=
  ⟨(c3_exactly_one_watcher "a".toList [1, 2] [2, 1] initTState (by decide) (by decide)
      rfl rfl rfl).2.2.2.2.2.1,
   (c3_exactly_one_watcher "a".toList [1, 2] [2, 1] initTState (by decide) (by decide)
      rfl rfl rfl).2.2.2.2.2.2.1,
   (c3_exactly_one_watcher "a".toList [1, 2] [2, 1] initTState (by decide) (by decide)
      rfl rfl rfl).2.2.2.2.2.2.2.1,
   (c3_exactly_one_watcher "a".toList [1, 2] [2, 1] initTState (by decide) (by decide)
      rfl rfl rfl).2.2.2.2.2.2.2.2⟩
